import Mathlib

/-!
Verification of the aiotone FM synthesizer core (`aiotone/fmsynth.py`).

A shallow embedding of the polyphonic phase-modulation synthesizer:
`Envelope` / `Operator` / `PhaseModulator` (a Voice) / `Synthesizer`
(voice allocator) / the stereo mixer, together with theorems settling the
spec claims about voice allocation, sustain-pedal semantics, the
note-off pitch gate, per-algorithm silence predicates, the render path's
pending-reset and idle-phase behaviour, feedback routing, reachable-state
invariants and panning construction.

Modelling conventions, applied throughout:
* Python `float` arithmetic is modelled as exact rational arithmetic (`ℚ`).
* Python `int(x)` truncates toward zero (`pyInt`); Python `round(x)` rounds
  half to even (`pyRound`); Python `%` on integers matches `Int.emod`.
* The coroutine generators of the source (`Operator.mono_out`,
  `PhaseModulator.mono_out`, `Synthesizer._stereo_out`) are modelled as
  explicit step functions: one `send(buffer)` on a generator is one
  application of the step function to the generator-local state (the
  phase accumulators and, for the mixer, the captured voice-pool identity
  tag) together with the shared object state.
* Buffers are Lean lists; the source pre-sizes its scratch arrays to
  `MAX_BUFFER = 2400` frames and slices `[:want_frames]`, which is the
  identity whenever `want_frames ≤ MAX_BUFFER` (the audio driver's bound);
  theorems about the mixer carry that bound as a hypothesis.
-/

namespace Aiotone

/-- The `INT16_MAXVALUE` from fmsynth.py. -/
def INT16_MAXVALUE : ℤ := 32767

/-- The `MAX_BUFFER` from fmsynth.py: 2400 frames. -/
def MAX_BUFFER : ℕ := 2400

/-- Python `int()` applied to a float: truncation toward zero.
For a rational `q = num/den` (`den > 0`), `Int.tdiv` truncates toward
zero, matching Python. -/
def pyInt (q : ℚ) : ℤ := q.num.tdiv (q.den : ℤ)

/-- Python `round()` applied to a float: round half to even. -/
def pyRound (q : ℚ) : ℤ :=
  let f : ℤ := ⌊q⌋
  let r : ℚ := q - (f : ℚ)
  if r < 1/2 then f
  else if (1/2 : ℚ) < r then f + 1
  else if Even f then f else f + 1

/-- Modelled from the spec: `saturate` lives in the Cython
module `aiotone/fm.pyx`, which is not under `src/`.  Per spec §4.3 the
voice output is "clamped to the representable sample range (hard clip)";
the sibling in-source implementation (`AmplitudeModulator.mono_out`,
fmsynth.py line 562) clips with
`max(min(int(out_mix), INT16_MAXVALUE), -INT16_MAXVALUE)`. -/
def saturate (x : ℤ) : ℤ := max (min x INT16_MAXVALUE) (-INT16_MAXVALUE)

/-! ## Envelope

Modelled from the spec: the `Envelope` class lives in the Cython module
`aiotone/fm.pyx`, which is not under `src/`.  Fields and operations follow
spec §3 and §4.1: state `{stage, level, samples_in_stage}` plus fixed
parameters `(a, d, s, r)` (the constructor keywords used at
fmsynth.py lines 365–392); `note_on`/`reset` forces `stage = Attack`
without zeroing `level`; `note_off`/`release` forces `stage = Release`;
`advance()` consumes one sample tick and returns the resulting level;
`is_silent()` holds iff `stage == Idle`.  The release ramp interpolates
"from the level at release time down to 0" (§4.1), so the model keeps
that anchor level in `releaseLevel`. -/

/-- Modelled from the spec: the envelope stage (spec §3): Idle, Attack,
Decay, Sustain, Release. -/
inductive EnvStage where
  | idle
  | attack
  | decay
  | sustain
  | release
  deriving DecidableEq, Repr

/-- Modelled from the spec: the ADSR envelope of `aiotone/fm.pyx` (see the
section comment above). -/
structure Envelope where
  a : ℕ
  d : ℕ
  s : ℚ
  r : ℕ
  stage : EnvStage := .idle
  level : ℚ := 0
  samplesInStage : ℕ := 0
  releaseLevel : ℚ := 0
  deriving DecidableEq, Repr

namespace Envelope

/-- Modelled from the spec §4.1: `note_on()` forces `stage = Attack`,
`samples_in_stage = 0`, and does not zero `level`.  The source calls this
`Envelope.reset()` (fmsynth.py line 321). -/
def reset (e : Envelope) : Envelope :=
  { e with stage := .attack, samplesInStage := 0 }

/-- Modelled from the spec §4.1: `note_off()` forces `stage = Release`,
`samples_in_stage = 0` regardless of current level.  The source calls this
`Envelope.release()` (fmsynth.py line 289).  The current level is kept as
the anchor of the release ramp. -/
def release (e : Envelope) : Envelope :=
  { e with stage := .release, samplesInStage := 0, releaseLevel := e.level }

/-- Modelled from the spec §4.1: `is_silent()` holds iff `stage == Idle`. -/
def isSilent (e : Envelope) : Bool := e.stage == .idle

/-- Modelled from the spec §4.1: `advance()` consumes one sample tick,
updates stage/level piecewise-linearly between the four fixed points
(a zero duration means "instantaneous"), and returns the resulting level.
The per-tick position is calibrated by spec §8 ("for `attack_samples = 48`,
after exactly 24 advances, `level == 0.5`; after `attack_samples`
advances, `level == 1.0` and stage is Decay"). -/
def advance (e : Envelope) : ℚ × Envelope :=
  match e.stage with
  | .idle => (e.level, e)
  | .attack =>
      let n := e.samplesInStage + 1
      if e.a = 0 ∨ e.a ≤ n then
        (1, { e with stage := .decay, level := 1, samplesInStage := 0 })
      else
        let lv : ℚ := (n : ℚ) / (e.a : ℚ)
        (lv, { e with level := lv, samplesInStage := n })
  | .decay =>
      let n := e.samplesInStage + 1
      if e.d = 0 ∨ e.d ≤ n then
        (e.s, { e with stage := .sustain, level := e.s, samplesInStage := 0 })
      else
        let lv : ℚ := 1 - (1 - e.s) * (n : ℚ) / (e.d : ℚ)
        (lv, { e with level := lv, samplesInStage := n })
  | .sustain => (e.s, { e with level := e.s })
  | .release =>
      let n := e.samplesInStage + 1
      if e.r = 0 ∨ e.r ≤ n then
        (0, { e with stage := .idle, level := 0, samplesInStage := 0 })
      else
        let lv : ℚ := e.releaseLevel * (1 - (n : ℚ) / (e.r : ℚ))
        (lv, { e with level := lv, samplesInStage := n })

end Envelope

/-! ## Operator (fmsynth.py lines 270–326) -/

/-- The `Operator` from fmsynth.py: a wavetable, a sample rate, an envelope,
and mutable note state.  `samples_since_reset` is declared in the source
(line 279) and never read or written elsewhere; it is carried verbatim. -/
structure Operator where
  wave : List ℤ
  sampleRate : ℕ
  envelope : Envelope
  volume : ℚ := 1
  pitch : ℚ := 440
  samplesSinceReset : ℤ := -1
  currentVelocity : ℚ := 0
  reset : Bool := false
  deriving DecidableEq, Repr

namespace Operator

/-- The `Operator.note_on` (fmsynth.py lines 283–286): marks a pending reset
and records pitch and velocity. -/
def noteOn (o : Operator) (pitch volume : ℚ) : Operator :=
  { o with reset := true, pitch := pitch, currentVelocity := volume }

/-- The `Operator.note_off` (fmsynth.py lines 288–289): releases the envelope.
The arguments are accepted and ignored, as in the source. -/
def noteOff (o : Operator) (_pitch _volume : ℚ) : Operator :=
  { o with envelope := o.envelope.release }

/-- The `Operator.is_silent` (fmsynth.py lines 325–326):
`not self.reset and self.envelope.is_silent()`. -/
def isSilent (o : Operator) : Bool := !o.reset && o.envelope.isSilent

end Operator

/-- The generator-local state of one running `Operator.mono_out()`
coroutine (fmsynth.py lines 291–323): the operator object it reads and
writes, and the phase accumulator `w_i` (initially `0.0`). -/
structure OperatorGen where
  op : Operator
  wi : ℚ := 0
  deriving DecidableEq, Repr

namespace OperatorGen

/-- The per-sample loop body of the non-silent branch of
`Operator.mono_out` (fmsynth.py lines 306–318): for each modulator sample,
scale it into table index units, advance the envelope, read the wavetable
at the rounded, wrapped modulated index, scale by velocity, volume and
envelope level, truncate to int, and then advance the phase accumulator
by `w_len * pitch / sample_rate`. -/
def renderSample (o : Operator) (acc : ℚ × Envelope) (mod : ℤ) :
    ℤ × (ℚ × Envelope) :=
  let wLen : ℤ := o.wave.length
  let modScaled : ℚ := (mod : ℚ) * (wLen : ℚ) / (INT16_MAXVALUE : ℚ)
  let (lv, env') := acc.2.advance
  let idx : ℤ := (pyRound (acc.1 + modScaled)) % wLen
  let sample : ℤ := pyInt (o.currentVelocity * o.volume * lv * (o.wave.getD idx.toNat 0 : ℚ))
  (sample, (acc.1 + (wLen : ℚ) * o.pitch / (o.sampleRate : ℚ), env'))

/-- One `send(modulator)` on `Operator.mono_out` (fmsynth.py lines
299–323).  If the envelope is silent, the output is all zeros and the
phase accumulator is set to `0.0`; otherwise each sample is rendered by
`renderSample`.  In both cases, *after* the samples are produced, a
pending reset (if any) is applied to the envelope and the flag cleared. -/
def monoOutStep (g : OperatorGen) (modulator : List ℤ) : List ℤ × OperatorGen :=
  let o := g.op
  let (out, wi', env') :=
    if o.envelope.isSilent then
      (List.replicate modulator.length (0 : ℤ), (0 : ℚ), o.envelope)
    else
      let (outRev, fin) := modulator.foldl
        (fun (st : List ℤ × (ℚ × Envelope)) mod =>
          let (sample, acc') := renderSample o st.2 mod
          (sample :: st.1, acc'))
        (([] : List ℤ), (g.wi, o.envelope))
      (outRev.reverse, fin.1, fin.2)
  if o.reset then
    (out, { op := { o with envelope := env'.reset, reset := false }, wi := wi' })
  else
    (out, { op := { o with envelope := env' }, wi := wi' })

end OperatorGen

/-! ## PhaseModulator — a Voice (fmsynth.py lines 329–467) -/

/-- The `PhaseModulator` from fmsynth.py: a three-operator phase modulator
with a selectable algorithm, a feedback coefficient, fixed detune rates,
and `last_pitch_played` (0.0 when no unreleased note is held).  The float
literals of the source (`0.66`, `1.003`, `19.0`, …) are the corresponding
exact rationals. -/
structure PhaseModulator where
  wave1 : List ℤ
  wave2 : List ℤ
  wave3 : List ℤ
  sampleRate : ℕ
  algorithm : ℤ := 3
  feedback : ℚ := 66/100
  rate1 : ℚ := 1003/1000
  rate2 : ℚ := 1
  rate3 : ℚ := 19
  op1 : Operator
  op2 : Operator
  op3 : Operator
  lastPitchPlayed : ℚ := 0
  deriving DecidableEq, Repr

namespace PhaseModulator

/-- The operators built by `PhaseModulator.reset_operators`
(fmsynth.py lines 361–395).  The envelope durations computed in float
(`int(0.25 * self.sample_rate)`, `int(self.sample_rate / 9)`, …) are
the corresponding truncated naturals. -/
def freshOps (w1 w2 w3 : List ℤ) (sampleRate : ℕ) : Operator × Operator × Operator :=
  ( { wave := w1, sampleRate := sampleRate,
      envelope := { a := 48, d := 3 * sampleRate, s := 0, r := sampleRate / 4 },
      volume := (75/100) * (6/10) }
  , { wave := w2, sampleRate := sampleRate,
      envelope := { a := 48, d := 4 * sampleRate, s := 0, r := sampleRate / 2 },
      volume := (54/100) * (6/10) }
  , { wave := w3, sampleRate := sampleRate,
      envelope := { a := 48, d := sampleRate / 9, s := 0, r := sampleRate / 9 },
      volume := (56/100) * (4/10) } )

/-- A fresh `PhaseModulator(wave1, wave2, wave3, sample_rate)` as built by
`Synthesizer.reset_voices` (fmsynth.py lines 143–151): `__post_init__`
runs `reset_operators` and clears `last_pitch_played`. -/
def fresh (w1 w2 w3 : List ℤ) (sampleRate : ℕ) : PhaseModulator :=
  let ops := freshOps w1 w2 w3 sampleRate
  { wave1 := w1, wave2 := w2, wave3 := w3, sampleRate := sampleRate,
    op1 := ops.1, op2 := ops.2.1, op3 := ops.2.2, lastPitchPlayed := 0 }

/-- The `PhaseModulator.is_silent` (fmsynth.py lines 397–405): inspects
`op1` for algorithms 0–1, `op1`/`op2` for algorithms 2–3, and all three
operators otherwise. -/
def isSilent (pm : PhaseModulator) : Bool :=
  if pm.algorithm = 0 ∨ pm.algorithm = 1 then
    pm.op1.isSilent
  else if pm.algorithm = 2 ∨ pm.algorithm = 3 then
    pm.op1.isSilent && pm.op2.isSilent
  else
    pm.op1.isSilent && pm.op2.isSilent && pm.op3.isSilent

/-- The `PhaseModulator.note_on` (fmsynth.py lines 407–411): records the
pitch and retriggers all three operators at their detuned pitches. -/
def noteOn (pm : PhaseModulator) (pitch volume : ℚ) : PhaseModulator :=
  { pm with
    lastPitchPlayed := pitch,
    op1 := pm.op1.noteOn (pitch * pm.rate1) volume,
    op2 := pm.op2.noteOn (pitch * pm.rate2) volume,
    op3 := pm.op3.noteOn (pitch * pm.rate3) volume }

/-- The `PhaseModulator.note_off` (fmsynth.py lines 413–420): a no-op unless
the pitch matches `last_pitch_played`; on a match, releases every
operator and clears `last_pitch_played` to 0.0. -/
def noteOff (pm : PhaseModulator) (pitch volume : ℚ) : PhaseModulator :=
  if pitch ≠ pm.lastPitchPlayed then pm
  else
    { pm with
      op1 := pm.op1.noteOff (pitch * pm.rate1) volume,
      op2 := pm.op2.noteOff (pitch * pm.rate2) volume,
      op3 := pm.op3.noteOff (pitch * pm.rate3) volume,
      lastPitchPlayed := 0 }

/-- The `PhaseModulator.is_released` (fmsynth.py lines 466–467):
`last_pitch_played == 0.0`. -/
def isReleased (pm : PhaseModulator) : Bool := pm.lastPitchPlayed == 0

end PhaseModulator

/-- The generator-local state of one running `PhaseModulator.mono_out()`
coroutine (fmsynth.py lines 422–464): the three operator coroutines'
phase accumulators (each starts at `0.0`). -/
structure PMGen where
  wi1 : ℚ := 0
  wi2 : ℚ := 0
  wi3 : ℚ := 0
  deriving DecidableEq, Repr

namespace PhaseModulator

/-- One `send(want_frames)` on `PhaseModulator.mono_out` (fmsynth.py
lines 434–464).  `op3` always renders first against a zero modulation
buffer; the algorithm selects how its output is routed to `op2`/`op1`
and how the carriers are summed (with `saturate` hard clipping).  The
source never reads `self.feedback` here.  Returns the yielded buffer,
the updated operator objects written back into the voice, and the new
generator-local state. -/
def monoOutStep (pm : PhaseModulator) (g : PMGen) (want : ℕ) :
    List ℤ × PhaseModulator × PMGen :=
  let zeros : List ℤ := List.replicate want 0
  let (out3, g3) := OperatorGen.monoOutStep ⟨pm.op3, g.wi3⟩ zeros
  if pm.algorithm = 0 then
    let (out2, g2) := OperatorGen.monoOutStep ⟨pm.op2, g.wi2⟩ out3
    let (out1, g1) := OperatorGen.monoOutStep ⟨pm.op1, g.wi1⟩ out2
    (out1, { pm with op1 := g1.op, op2 := g2.op, op3 := g3.op },
      { wi1 := g1.wi, wi2 := g2.wi, wi3 := g3.wi })
  else if pm.algorithm = 1 then
    let (out2, g2) := OperatorGen.monoOutStep ⟨pm.op2, g.wi2⟩ zeros
    let modBuf := List.zipWith (fun a b => saturate (a + b)) out3 out2
    let (out1, g1) := OperatorGen.monoOutStep ⟨pm.op1, g.wi1⟩ modBuf
    (out1, { pm with op1 := g1.op, op2 := g2.op, op3 := g3.op },
      { wi1 := g1.wi, wi2 := g2.wi, wi3 := g3.wi })
  else if pm.algorithm = 2 then
    let (out2, g2) := OperatorGen.monoOutStep ⟨pm.op2, g.wi2⟩ out3
    let (out1, g1) := OperatorGen.monoOutStep ⟨pm.op1, g.wi1⟩ out3
    (List.zipWith (fun a b => saturate (a + b)) out1 out2,
      { pm with op1 := g1.op, op2 := g2.op, op3 := g3.op },
      { wi1 := g1.wi, wi2 := g2.wi, wi3 := g3.wi })
  else if pm.algorithm = 3 then
    let (out2, g2) := OperatorGen.monoOutStep ⟨pm.op2, g.wi2⟩ out3
    let (out1, g1) := OperatorGen.monoOutStep ⟨pm.op1, g.wi1⟩ zeros
    (List.zipWith (fun a b => saturate (a + b)) out1 out2,
      { pm with op1 := g1.op, op2 := g2.op, op3 := g3.op },
      { wi1 := g1.wi, wi2 := g2.wi, wi3 := g3.wi })
  else
    let (out2, g2) := OperatorGen.monoOutStep ⟨pm.op2, g.wi2⟩ zeros
    let (out1, g1) := OperatorGen.monoOutStep ⟨pm.op1, g.wi1⟩ zeros
    (List.zipWith (fun a bc => saturate (a + bc))
        out1 (List.zipWith (· + ·) out2 out3),
      { pm with op1 := g1.op, op2 := g2.op, op3 := g3.op },
      { wi1 := g1.wi, wi2 := g2.wi, wi3 := g3.wi })

end PhaseModulator

/-! ## The MIDI-note → frequency table (`aiotone/notes.py`) -/

/-- The exact rational stand-in for the float `2 ** (1 / 12)` used by
`notes.py` (`440 * 2 ** ((n - 69) / 12)`); `69433 / 65536` is
`2 ** (1 / 12)` rounded to 16 fractional bits.  The claims depend only on
the table being strictly positive and injective, which any rational base
greater than 1 preserves; the numeric value itself is float arithmetic,
modelled as exact rationals throughout this file. -/
def twelfthRootOfTwo : ℚ := 69433/65536

/-- The frequency assigned to MIDI note `n` by `notes.py` line 55:
`440 * 2 ** ((n - 69) / 12)`, with the rational stand-in base. -/
def freqVal (n : ℕ) : ℚ := 440 * twelfthRootOfTwo ^ ((n : ℤ) - 69)

/-- The `note_to_freq` from `notes.py` lines 52–55: the table is populated
for every note of `all_notes`, i.e. the base notes 12–23 extended by
octaves 1–8, covering exactly the MIDI notes 12–119.  Lookup of any
other note raises `KeyError` in the source (`none` here). -/
def noteToFreq (n : ℕ) : Option ℚ :=
  if 12 ≤ n ∧ n ≤ 119 then some (freqVal n) else none

/-! ## Synthesizer — the voice allocator (fmsynth.py lines 127–267) -/

/-- The `Synthesizer` from fmsynth.py.  `genTag` models the Python object
identity `id(self.voices)`: `reset_voices` installs a brand-new list, so
the tag changes on every reset.  `_released_on_sustain` is a Python set
of floats; it is modelled as a duplicate-free list (iteration order over
the set is arbitrary in Python, and the flush in `sustain` is
order-independent because distinct pitches touch disjoint voices).  The
three wavetables (`sine12_array(2048)`, `sine_array(2048)`,
`sine_array(2048)`) are carried as fields: their contents are
precomputed pure math, out of scope per spec §1, and no claim depends on
them. -/
structure Synthesizer where
  polyphony : ℕ
  sampleRate : ℕ
  wave1 : List ℤ
  wave2 : List ℤ
  wave3 : List ℤ
  panning : List ℚ
  voices : List PhaseModulator
  voicesLru : List ℕ
  sustainLevel : ℤ
  releasedOnSustain : List ℚ
  genTag : ℕ
  deriving DecidableEq, Repr

/-- A placeholder voice for total list indexing; the LRU-permutation
invariant keeps every index used by the source in bounds. -/
def defaultPM : PhaseModulator := PhaseModulator.fresh [] [] [] 0

instance : Inhabited PhaseModulator := ⟨defaultPM⟩

namespace Synthesizer

/-- The panning list built by `Synthesizer.reset_voices`
(fmsynth.py line 142): `[(2 * i / (polyphony - 1) - 1) for i in
range(polyphony)]`.  Each element divides by `polyphony - 1`; with
`polyphony = 1` the first element raises `ZeroDivisionError` (`none`),
and with `polyphony = 0` the comprehension is empty and no division is
evaluated. -/
def panningList (polyphony : ℕ) : Option (List ℚ) :=
  (List.range polyphony).mapM fun (i : ℕ) =>
    if (polyphony : ℚ) - 1 = 0 then none
    else some (2 * (i : ℚ) / ((polyphony : ℚ) - 1) - 1)

/-- The `Synthesizer.reset_voices` (fmsynth.py lines 140–154): recompute the
panning positions, build a brand-new voice pool of fresh voices, reset
the LRU order to `0, …, polyphony - 1`, clear the sustain level and the
released-while-sustained set.  Fails (`none`) exactly when the panning
computation divides by zero. -/
def resetVoices (s : Synthesizer) : Option Synthesizer :=
  (panningList s.polyphony).map fun pans =>
    { s with
      panning := pans,
      voices := (List.range s.polyphony).map fun _ =>
        PhaseModulator.fresh s.wave1 s.wave2 s.wave3 s.sampleRate,
      voicesLru := List.range s.polyphony,
      sustainLevel := 0,
      releasedOnSustain := [],
      genTag := s.genTag + 1 }

/-- The `Synthesizer(polyphony, sample_rate)` construction: `__post_init__`
(fmsynth.py lines 137–138) runs `reset_voices`.  The wavetables are
passed as parameters (see `Synthesizer`). -/
def mk' (polyphony sampleRate : ℕ) (w1 w2 w3 : List ℤ) : Option Synthesizer :=
  resetVoices
    { polyphony := polyphony, sampleRate := sampleRate,
      wave1 := w1, wave2 := w2, wave3 := w3,
      panning := [], voices := [], voicesLru := [],
      sustainLevel := 0, releasedOnSustain := [], genTag := 0 }

/-- The voice-allocation scan of `Synthesizer.note_on` (fmsynth.py lines
207–229) as a pure function of the pool and the LRU list: the first
silent voice wins; otherwise the first released voice; otherwise the
front of the LRU.  In every case the chosen voice index is popped from
its LRU position and appended at the back.  Returns the chosen voice
index and the new LRU list. -/
def allocVoice (voices : List PhaseModulator) (lru : List ℕ) : ℕ × List ℕ :=
  let vli :=
    match lru.findIdx? (fun vi => (voices.getD vi defaultPM).isSilent) with
    | some k => k
    | none =>
        match lru.findIdx? (fun vi => (voices.getD vi defaultPM).isReleased) with
        | some k => k
        | none => 0
  let vi := lru.getD vli 0
  (vi, lru.eraseIdx vli ++ [vi])

/-- The `Synthesizer.note_on` (fmsynth.py lines 200–230).  An unmapped note
is silently dropped (the state is returned unchanged).  With an empty
LRU list (`polyphony = 0`) the source's `lru.pop(0)` raises `IndexError`
(`none` here).  Otherwise the scanned voice is moved to the back of the
LRU and retriggered at `velocity / 127`. -/
def noteOn (s : Synthesizer) (note velocity : ℕ) : Option Synthesizer :=
  match noteToFreq note with
  | none => some s
  | some pitch =>
      if s.voicesLru.isEmpty then none
      else
        let volume : ℚ := (velocity : ℚ) / 127
        let (vi, lru') := allocVoice s.voices s.voicesLru
        some { s with
          voicesLru := lru',
          voices := s.voices.set vi ((s.voices.getD vi defaultPM).noteOn pitch volume) }

/-- The `Synthesizer.note_off` (fmsynth.py lines 232–244).  An unmapped note
is silently dropped.  While the sustain level is above 32 the pitch is
only added to the released-while-sustained set; otherwise `note_off` is
broadcast to every voice at `velocity / 127`. -/
def noteOff (s : Synthesizer) (note velocity : ℕ) : Synthesizer :=
  match noteToFreq note with
  | none => s
  | some pitch =>
      if s.sustainLevel > 32 then
        { s with releasedOnSustain :=
            if pitch ∈ s.releasedOnSustain then s.releasedOnSustain
            else s.releasedOnSustain ++ [pitch] }
      else
        let volume : ℚ := (velocity : ℚ) / 127
        { s with voices := s.voices.map fun v => v.noteOff pitch volume }

/-- The `Synthesizer.sustain` (fmsynth.py lines 258–264): when the stored
level is above 32 and the new value is strictly below 32, broadcast
`note_off(pitch, 0)` for every deferred pitch and clear the set; in
every case store the new value. -/
def sustain (s : Synthesizer) (value : ℤ) : Synthesizer :=
  let s' :=
    if s.sustainLevel > 32 ∧ value < 32 then
      { s with
        voices := s.releasedOnSustain.foldl
          (fun vs pitch => vs.map fun v => v.noteOff pitch 0) s.voices,
        releasedOnSustain := [] }
    else s
  { s' with sustainLevel := value }

/-- The `Synthesizer.all_notes_off` (fmsynth.py lines 266–267): a hard reset
of the voice pool via `reset_voices`.  The MIDI controller value is
ignored. -/
def allNotesOff (s : Synthesizer) (_value : ℤ) : Option Synthesizer :=
  s.resetVoices

end Synthesizer

/-! ## The stereo mixer (fmsynth.py lines 100–108 and 156–187) -/

/-- Modelled from the spec: `calculate_panning` lives in
the Cython module `aiotone/fm.pyx`, which is not under `src/`.  Per spec
§4.5, `left_gain = (1 - pan) / 2` and `right_gain = (1 + pan) / 2`; the
in-source analogue `auto_pan` (fmsynth.py lines 120–123) writes
`out[2*i] = int((-pan + 1) / 2 * mono[i])` and
`out[2*i + 1] = int((pan + 1) / 2 * mono[i])`.  Returns the interleaved
stereo buffer for one mono buffer. -/
def calculatePanning (pan : ℚ) (mono : List ℤ) : List ℤ :=
  mono.flatMap fun m =>
    [pyInt ((1 - pan) / 2 * (m : ℚ)), pyInt ((1 + pan) / 2 * (m : ℚ))]

/-- The generator-local state of one running `Synthesizer.stereo_out()`
coroutine (fmsynth.py lines 156–187): the voice-pool identity captured
when the per-voice pull chain was last built (`id_voices`), and the
generator-local state of each voice chain. -/
structure MixerState where
  idVoices : ℕ
  chain : List PMGen
  deriving DecidableEq, Repr

namespace Synthesizer

/-- Rebuilding the per-voice pull chain, as `_stereo_out` does at lines
168–177: fresh `mono_out`/`panning` coroutines for every voice (all
phase accumulators restart at `0.0`) and the current voice-pool identity
captured. -/
def rebuildChain (s : Synthesizer) : MixerState :=
  { idVoices := s.genTag, chain := List.replicate s.polyphony {} }

/-- One pull of `want` frames from `Synthesizer.stereo_out` (fmsynth.py
lines 156–187).  If the voice pool identity changed since the chain was
built, `_stereo_out` raises `EOFError`, which the `stereo_out` wrapper
catches to rebuild the chain and render the same `want` frames in the
same call.  Each voice renders `want` mono frames, is panned to
interleaved stereo, and the voices are mixed sample-wise with gain
`1 / polyphony`.  Returns the interleaved output (length `2 * want`),
the synthesizer with the written-back voice states, and the new mixer
state. -/
def stereoOutStep (s : Synthesizer) (m : MixerState) (want : ℕ) :
    List ℤ × Synthesizer × MixerState :=
  let m := if m.idVoices = s.genTag then m else s.rebuildChain
  let results := (List.range s.polyphony).map fun i =>
    (s.voices.getD i defaultPM).monoOutStep (m.chain.getD i {}) want
  let stereos := (List.range s.polyphony).map fun i =>
    calculatePanning (s.panning.getD i 0) (results.getD i ([], defaultPM, {})).1
  let mixDown : ℚ := 1 / (s.polyphony : ℚ)
  let out := (List.range (2 * want)).map fun j =>
    pyInt ((stereos.map fun st => mixDown * ((st.getD j 0 : ℤ) : ℚ)).sum)
  (out,
   { s with voices := results.map fun r => r.2.1 },
   { idVoices := m.idVoices, chain := results.map fun r => r.2.2 })

end Synthesizer

/-! ## The control path: sequences of MIDI operations -/

/-- One control-path MIDI operation dispatched to the `Synthesizer` by
`midi_consumer` (fmsynth.py lines 597–655). -/
inductive MidiOp where
  | noteOn (note velocity : ℕ)
  | noteOff (note velocity : ℕ)
  | sustain (value : ℤ)
  | allNotesOff (value : ℤ)
  deriving DecidableEq, Repr

/-- Apply one MIDI operation to the synthesizer state. -/
def applyOp (s : Synthesizer) : MidiOp → Option Synthesizer
  | .noteOn note velocity => s.noteOn note velocity
  | .noteOff note velocity => some (s.noteOff note velocity)
  | .sustain value => some (s.sustain value)
  | .allNotesOff value => s.allNotesOff value

/-- Apply a sequence of MIDI operations, left to right. -/
def runOps (s : Synthesizer) : List MidiOp → Option Synthesizer
  | [] => some s
  | op :: ops => (applyOp s op).bind (fun s' => runOps s' ops)

/-- A synthesizer state is reachable when some construction followed by
some sequence of `note_on` / `note_off` / `sustain` / `all_notes_off`
operations produces it. -/
def Reaches (s : Synthesizer) : Prop :=
  ∃ (polyphony sampleRate : ℕ) (w1 w2 w3 : List ℤ) (s0 : Synthesizer)
    (ops : List MidiOp),
    Synthesizer.mk' polyphony sampleRate w1 w2 w3 = some s0 ∧
    runOps s0 ops = some s

/-! ## General list helpers -/

/-- Mapping an option-free elementwise function through `mapM`. -/
theorem mapM_some_eq_map {α β : Type} (f : α → β) :
    ∀ l : List α, (l.mapM fun a => (some (f a) : Option β)) = some (l.map f)
  | [] => rfl
  | a :: t => by
      rw [List.mapM_cons, mapM_some_eq_map f t]
      rfl

/-- Popping index `k` and appending the popped element is a permutation. -/
theorem eraseIdx_append_getD_perm {α : Type} (d : α) :
    ∀ (l : List α) (k : ℕ), k < l.length →
      (l.eraseIdx k ++ [l.getD k d]).Perm l
  | a :: t, 0, _ => by
      simp [List.perm_append_singleton a t]
  | a :: t, k + 1, h => by
      simpa using (eraseIdx_append_getD_perm d t k (by simpa using h)).cons a

/-- Reading a mapped range list at an in-bounds index. -/
theorem map_range_getD_eval {α : Type} (f : ℕ → α) (d : α) (n i : ℕ) (h : i < n) :
    ((List.range n).map f).getD i d = f i := by
  rw [List.getD_eq_getElem?_getD, List.getElem?_map]
  simp [List.getElem?_range h]

/-! ## Evaluation helpers for `pyInt`, `pyRound` and the note table -/

/-- For nonnegative arguments, Python truncation agrees with the floor. -/
theorem pyInt_eq_floor {q : ℚ} (h : 0 ≤ q) : pyInt q = ⌊q⌋ := by
  unfold pyInt
  rw [Rat.floor_def]
  exact Int.tdiv_eq_ediv (Rat.num_nonneg.mpr h) (by positivity)

/-- The `pyInt` of an integer is that integer. -/
theorem pyInt_intCast (k : ℤ) : pyInt (k : ℚ) = k := by
  unfold pyInt
  simp [Rat.num_intCast, Rat.den_intCast, Int.tdiv_one]

/-- The `pyRound` below the halfway point rounds down. -/
theorem pyRound_eq_of_lt_half {q : ℚ} {k : ℤ} (h1 : (k : ℚ) ≤ q)
    (h2 : q < (k : ℚ) + 1/2) : pyRound q = k := by
  have hf : ⌊q⌋ = k := by
    rw [Int.floor_eq_iff]
    exact ⟨h1, by linarith⟩
  unfold pyRound
  rw [hf, if_pos (by linarith)]

/-- The `pyRound` above the halfway point rounds up. -/
theorem pyRound_eq_of_gt_half {q : ℚ} {k : ℤ} (h1 : (k : ℚ) + 1/2 < q)
    (h2 : q < (k : ℚ) + 1) : pyRound q = k + 1 := by
  have hf : ⌊q⌋ = k := by
    rw [Int.floor_eq_iff]
    exact ⟨by linarith, by linarith⟩
  unfold pyRound
  rw [hf, if_neg (by linarith), if_pos (by linarith)]

/-- The `pyRound` of an integer is that integer. -/
theorem pyRound_intCast (k : ℤ) : pyRound (k : ℚ) = k :=
  pyRound_eq_of_lt_half le_rfl (by norm_num)

/-- Every table frequency is strictly positive. -/
theorem freqVal_pos (n : ℕ) : 0 < freqVal n := by
  unfold freqVal twelfthRootOfTwo
  positivity

/-- Every table frequency is nonzero (so a voice holding a table pitch is
never confused with the `0.0` sentinel of `last_pitch_played`). -/
theorem freqVal_ne_zero (n : ℕ) : freqVal n ≠ 0 :=
  ne_of_gt (freqVal_pos n)

/-- Boolean form of `freqVal_ne_zero`, for running `is_released`. -/
theorem freqVal_beq_zero (n : ℕ) : (freqVal n == (0 : ℚ)) = false :=
  beq_eq_false_iff_ne.mpr (freqVal_ne_zero n)

/-! ## C10 — panning construction and the monophonic failure -/

/-- With one voice, the pan computation divides by zero. -/
theorem panningList_one : Synthesizer.panningList 1 = none := by
  have h : ((1 : ℕ) : ℚ) - 1 = 0 := by norm_num
  simp [Synthesizer.panningList, h, List.range_succ, List.mapM.loop]

/-- C10: `Synthesizer` construction (and every `all_notes_off` reset)
computes each voice's pan position as `2*i/(polyphony-1) - 1`: for every
`polyphony ≥ 2` this succeeds and yields positions evenly spaced over
`[-1, 1]` (first `-1`, last `1`, constant spacing `2/(polyphony-1)`),
but for `polyphony = 1` the division by zero makes the computation fail,
so constructing a monophonic synthesizer fails. -/
theorem panning_even_and_mono_fails :
    (∀ p : ℕ, 2 ≤ p → ∃ l : List ℚ,
        Synthesizer.panningList p = some l ∧
        l.length = p ∧
        l.getD 0 0 = -1 ∧
        l.getD (p - 1) 0 = 1 ∧
        ∀ i : ℕ, i + 1 < p →
          l.getD (i + 1) 0 - l.getD i 0 = 2 / ((p : ℚ) - 1)) ∧
    Synthesizer.panningList 1 = none ∧
    ∀ (sr : ℕ) (w1 w2 w3 : List ℤ), Synthesizer.mk' 1 sr w1 w2 w3 = none := by
  refine ⟨?_, panningList_one, ?_⟩
  · intro p hp
    have hne : ((p : ℚ) - 1) ≠ 0 := by
      have : (2 : ℚ) ≤ (p : ℚ) := by exact_mod_cast hp
      intro h
      nlinarith
    have hcond : ¬((p : ℚ) - 1 = 0) := hne
    refine ⟨(List.range p).map (fun (i : ℕ) => 2 * (i : ℚ) / ((p : ℚ) - 1) - 1),
      ?_, by simp, ?_, ?_, ?_⟩
    · unfold Synthesizer.panningList
      rw [show (fun (i : ℕ) => if (p : ℚ) - 1 = 0 then (none : Option ℚ)
            else some (2 * (i : ℚ) / ((p : ℚ) - 1) - 1)) =
          fun (i : ℕ) => some (2 * (i : ℚ) / ((p : ℚ) - 1) - 1) from
        funext fun i => if_neg hcond]
      exact mapM_some_eq_map _ _
    · have h0 : 0 < p := by omega
      have := map_range_getD_eval (fun (i : ℕ) => 2 * (i : ℚ) / ((p : ℚ) - 1) - 1) 0 p 0 h0
      rw [this]
      simp
    · have hlt : p - 1 < p := by omega
      have hcast : ((p - 1 : ℕ) : ℚ) = (p : ℚ) - 1 := by
        have h1 : 1 ≤ p := by omega
        push_cast [h1]
        ring
      rw [map_range_getD_eval (fun (i : ℕ) => 2 * (i : ℚ) / ((p : ℚ) - 1) - 1) 0 p _ hlt,
        hcast]
      field_simp
      norm_num
    · intro i hi
      have hi1 : i + 1 < p := hi
      have hi0 : i < p := by omega
      rw [map_range_getD_eval (fun (i : ℕ) => 2 * (i : ℚ) / ((p : ℚ) - 1) - 1) 0 p _ hi1,
        map_range_getD_eval (fun (i : ℕ) => 2 * (i : ℚ) / ((p : ℚ) - 1) - 1) 0 p _ hi0]
      push_cast
      field_simp
      ring
  · intro sr w1 w2 w3
    unfold Synthesizer.mk' Synthesizer.resetVoices
    simp [panningList_one]

/-- Witness for C10 at `polyphony = 4`. -/
theorem panning_even_and_mono_fails_witness :
    ∃ l : List ℚ,
      Synthesizer.panningList 4 = some l ∧
      l.length = 4 ∧
      l.getD 0 0 = -1 ∧
      l.getD (4 - 1) 0 = 1 ∧
      ∀ i : ℕ, i + 1 < 4 →
        l.getD (i + 1) 0 - l.getD i 0 = 2 / ((4 : ℚ) - 1) :=
  panning_even_and_mono_fails.1 4 (by norm_num)

/-! ## C8 — the feedback coefficient is never applied

`PhaseModulator` declares `feedback: float = 0.66` (fmsynth.py line 349)
and its docstring marks the deepest modulator with "`* - with feedback`",
but `PhaseModulator.mono_out` (lines 422–464) never reads the field: the
output of `op3` is fed forward unscaled. -/

/-- A sustained envelope at full level, used by the concrete render
states below. -/
def envSustained : Envelope :=
  { a := 48, d := 100, s := 1, r := 100, stage := .sustain, level := 1 }

/-- An idle envelope (silent). -/
def envIdle : Envelope := { a := 48, d := 100, s := 0, r := 100 }

/-- Concrete voice for the C8 failing input: algorithm 3, `op3` holds a
one-entry wavetable producing the sample 16384, `op2` has the wavetable
`[10, 20, 30, 40]`, `op1` is idle. -/
def pmC8 : PhaseModulator :=
  { wave1 := [5], wave2 := [10, 20, 30, 40], wave3 := [16384],
    sampleRate := 100,
    op1 := { wave := [5], sampleRate := 100, envelope := envIdle },
    op2 := { wave := [10, 20, 30, 40], sampleRate := 100,
             envelope := envSustained, currentVelocity := 1 },
    op3 := { wave := [16384], sampleRate := 100,
             envelope := envSustained, currentVelocity := 1 } }

/-- C8: the claim (and the class docstring) say the deepest modulator's
output is scaled by `out[i] += feedback * out[i]` before being fed
forward, but the code never reads `self.feedback`: rendering is invariant
under ANY change of the feedback coefficient, and on the concrete state
`pmC8` the carrier `op2` reads its wavetable at the index derived from
the UNSCALED modulation 16384 (index `round(16384·4/32767) = 2`, sample
30), not the feedback-scaled modulation `16384·1.66` (index 3, sample
40). -/
theorem feedback_never_applied :
    (∀ (pm : PhaseModulator) (f : ℚ) (g : PMGen) (want : ℕ),
        (PhaseModulator.monoOutStep { pm with feedback := f } g want).1 =
          (PhaseModulator.monoOutStep pm g want).1 ∧
        (PhaseModulator.monoOutStep { pm with feedback := f } g want).2.2 =
          (PhaseModulator.monoOutStep pm g want).2.2 ∧
        (PhaseModulator.monoOutStep { pm with feedback := f } g want).2.1 =
          { (PhaseModulator.monoOutStep pm g want).2.1 with feedback := f }) ∧
    (PhaseModulator.monoOutStep pmC8 {} 1).1 = [30] := by
  constructor
  · intro pm f g want
    refine ⟨?_, ?_, ?_⟩ <;>
      (cases pm; dsimp only [PhaseModulator.monoOutStep]; split_ifs <;> rfl)
  · have h3 : (OperatorGen.monoOutStep ⟨pmC8.op3, 0⟩ [0]).1 = [16384] := by
      norm_num [OperatorGen.monoOutStep, OperatorGen.renderSample, pmC8,
        Envelope.isSilent, Envelope.advance, envSustained, pyRound, pyInt_eq_floor,
        INT16_MAXVALUE, (show ¬(EnvStage.sustain = EnvStage.idle) by decide)]
    have h2 : (OperatorGen.monoOutStep ⟨pmC8.op2, 0⟩ [16384]).1 = [30] := by
      have hfr : Int.fract ((65536 : ℚ) / 32767) = 2/32767 := by
        rw [Int.fract]
        norm_num
      norm_num [OperatorGen.monoOutStep, OperatorGen.renderSample, pmC8,
        Envelope.isSilent, Envelope.advance, envSustained, pyRound, pyInt_eq_floor,
        INT16_MAXVALUE, hfr, pyInt_intCast,
        (show Int.toNat 2 = 2 by rfl),
        (show ¬(EnvStage.sustain = EnvStage.idle) by decide)]
    have h1 : (OperatorGen.monoOutStep ⟨pmC8.op1, 0⟩ [0]).1 = [0] := by
      norm_num [OperatorGen.monoOutStep, pmC8, Envelope.isSilent, envIdle]
    norm_num [PhaseModulator.monoOutStep,
      (show pmC8.algorithm = 3 from rfl), (show pmC8.feedback = 66/100 from rfl),
      h3, h2, h1, saturate, INT16_MAXVALUE]

/-! ## C5 — which state determines `is_silent` / `is_released` -/

/-- The n-th operator of a voice (`op1`, `op2`, `op3`). -/
def PhaseModulator.opAt (pm : PhaseModulator) : Fin 3 → Operator
  | 0 => pm.op1
  | 1 => pm.op2
  | 2 => pm.op3

/-- The single algorithm → audible-operators table that spec §4.3 asks
for: operator 1 for algorithms 0–1; operators 1–2 for algorithms 2–3;
all three otherwise. -/
def audibleOps (algo : ℤ) : List (Fin 3) :=
  if algo = 0 ∨ algo = 1 then [0]
  else if algo = 2 ∨ algo = 3 then [0, 1]
  else [0, 1, 2]

/-- C5 as stated: both `is_silent()` and `is_released()` are determined
by inspecting only the operators (those audible under the current
algorithm): two voices with the same algorithm and the same three
operators must agree on both predicates. -/
def Claim5Stated : Prop :=
  ∀ pm pm' : PhaseModulator, pm.algorithm = pm'.algorithm →
    pm.op1 = pm'.op1 → pm.op2 = pm'.op2 → pm.op3 = pm'.op3 →
    (pm.isSilent = pm'.isSilent ∧ pm.isReleased = pm'.isReleased)

/-- Two voices with identical operators and algorithm but different
`last_pitch_played`: `is_released()` disagrees, so it is not determined
by inspecting operators at all — it reads only `last_pitch_played`. -/
theorem silence_predicates_counterexample : ¬ Claim5Stated := by
  intro h
  have := (h (PhaseModulator.fresh [] [] [] 0)
      { PhaseModulator.fresh [] [] [] 0 with lastPitchPlayed := 1 }
      rfl rfl rfl rfl).2
  simp [PhaseModulator.isReleased, PhaseModulator.fresh] at this

/-- C5 amended: `is_silent()` inspects exactly the operators audible
under the current algorithm, given by the single table `audibleOps`;
`is_released()` is `last_pitch_played == 0.0`, independent of the
algorithm and of every operator. -/
theorem silence_audibility_from_one_table :
    (∀ pm : PhaseModulator,
        pm.isSilent = (audibleOps pm.algorithm).all fun i => (pm.opAt i).isSilent) ∧
    (∀ pm pm' : PhaseModulator, pm.lastPitchPlayed = pm'.lastPitchPlayed →
        pm.isReleased = pm'.isReleased) := by
  constructor
  · intro pm
    unfold PhaseModulator.isSilent audibleOps
    split_ifs <;> simp [PhaseModulator.opAt, List.all, Bool.and_assoc]
  · intro pm pm' h
    unfold PhaseModulator.isReleased
    rw [h]

/-- Witness for C5 (amended): fresh voices with different algorithms and
the same `last_pitch_played` agree on `is_released`. -/
theorem silence_audibility_from_one_table_witness :
    (PhaseModulator.fresh [] [] [] 0).isReleased =
      ({ PhaseModulator.fresh [] [] [] 0 with algorithm := 7 }).isReleased :=
  silence_audibility_from_one_table.2 _ _ rfl

/-! ## C6 — rendering a silent operator -/

/-- C6 as stated: a render call on an operator whose envelope is silent
and whose pending-reset flag is clear emits zeros and leaves the phase
accumulator unchanged. -/
def Claim6Stated : Prop :=
  ∀ (g : OperatorGen) (modulator : List ℤ),
    g.op.envelope.isSilent = true → g.op.reset = false →
    (g.monoOutStep modulator).1 = List.replicate modulator.length 0 ∧
    (g.monoOutStep modulator).2.wi = g.wi

/-- Concrete silent operator whose phase accumulator holds `5.0` (as it
does after a note decays to Idle mid-buffer and the next call comes in). -/
def gC6 : OperatorGen :=
  { op := { wave := [7, 9], sampleRate := 100, envelope := envIdle }, wi := 5 }

/-- The silent branch of `Operator.mono_out` executes `w_i = 0.0`
(fmsynth.py line 304): on `gC6` the phase accumulator comes out `0`,
not the `5` it went in with, refuting the claim. -/
theorem silent_render_counterexample : ¬ Claim6Stated := by
  intro h
  have := (h gC6 [0] rfl rfl).2
  simp [OperatorGen.monoOutStep, gC6, envIdle, Envelope.isSilent] at this

/-- C6 amended: the render call on a silent, reset-free operator emits
zeros, leaves the operator object unchanged, and sets the phase
accumulator to `0.0` (so an idle voice's phase does not drift across
successive silent calls, but a leftover nonzero phase is discarded
rather than kept). -/
theorem silent_render_zeros_and_clears_phase :
    ∀ (g : OperatorGen) (modulator : List ℤ),
      g.op.envelope.isSilent = true → g.op.reset = false →
      g.monoOutStep modulator = (List.replicate modulator.length 0, ⟨g.op, 0⟩) := by
  intro g modulator hsil hres
  obtain ⟨o, wi⟩ := g
  cases o
  simp only at hsil hres
  subst hres
  simp [OperatorGen.monoOutStep, hsil]

/-- Witness for C6 (amended) at the concrete silent operator. -/
theorem silent_render_zeros_and_clears_phase_witness :
    gC6.monoOutStep [0, 0] = ([0, 0], ⟨gC6.op, 0⟩) :=
  silent_render_zeros_and_clears_phase gC6 [0, 0] rfl rfl

/-! ## C7 — when the pending envelope reset is applied -/

/-- The render step as the claim (and spec §4.2) words it: "If
`pending_reset`, apply `envelope.note_on()` once at the top of the call
and clear the flag", before any of the call's samples are computed.
Defined only to compare the source's behaviour against the claim. -/
def OperatorGen.monoOutStepResetFirst (g : OperatorGen) (modulator : List ℤ) :
    List ℤ × OperatorGen :=
  let o := g.op
  let o' := if o.reset then { o with envelope := o.envelope.reset, reset := false } else o
  OperatorGen.monoOutStep { op := o', wi := g.wi } modulator

/-- C7 as stated: whenever the pending-reset flag is set, the next render
call behaves as if the envelope reset were applied at the top of the
call, before any samples are computed. -/
def Claim7Stated : Prop :=
  ∀ (g : OperatorGen) (modulator : List ℤ), g.op.reset = true →
    g.monoOutStep modulator = g.monoOutStepResetFirst modulator

/-- Concrete operator with a pending reset over a silent envelope: the
retrigger has been requested but the envelope is still Idle. -/
def gC7 : OperatorGen :=
  { op := { wave := [96], sampleRate := 100, envelope := envIdle,
            currentVelocity := 1, reset := true }, wi := 0 }

/-- The source applies the pending reset at the END of the call, after
the samples are computed (fmsynth.py lines 319–321 run after the render
loop): on `gC7` the call yields `[0]` (the still-idle envelope silences
the buffer), while the claim's reset-at-top behaviour would yield `[2]`
(one attack-phase sample of the 96-valued wavetable at level 1/48). -/
theorem pending_reset_counterexample : ¬ Claim7Stated := by
  intro h
  have hout := congrArg Prod.fst (h gC7 [0] rfl)
  have hcode : (gC7.monoOutStep [0]).1 = [0] := by
    norm_num [OperatorGen.monoOutStep, gC7, envIdle, Envelope.isSilent]
  have hspec : (gC7.monoOutStepResetFirst [0]).1 = [2] := by
    norm_num [OperatorGen.monoOutStepResetFirst, OperatorGen.monoOutStep,
      OperatorGen.renderSample, gC7, envIdle, Envelope.isSilent, Envelope.reset,
      Envelope.advance, pyRound, pyInt_eq_floor, INT16_MAXVALUE,
      (show ¬(EnvStage.attack = EnvStage.idle) by decide)]
  rw [hcode, hspec] at hout
  simp at hout

/-- C7 amended: the pending reset does not affect the call that consumes
it — the call's output and new phase are those of the same operator with
the flag clear — and it is applied exactly once at the end of the call:
afterwards the flag is clear and the envelope is the reset
(`stage = Attack`, `samples_in_stage = 0`) of the envelope the render
loop produced, so the output reflects the retriggered envelope only from
the next call on. -/
theorem pending_reset_applied_after_samples :
    ∀ (g : OperatorGen) (modulator : List ℤ), g.op.reset = true →
      (g.monoOutStep modulator).1 =
        (OperatorGen.monoOutStep ⟨{ g.op with reset := false }, g.wi⟩ modulator).1 ∧
      (g.monoOutStep modulator).2.wi =
        (OperatorGen.monoOutStep ⟨{ g.op with reset := false }, g.wi⟩ modulator).2.wi ∧
      (g.monoOutStep modulator).2.op.reset = false ∧
      (g.monoOutStep modulator).2.op.envelope =
        ((OperatorGen.monoOutStep ⟨{ g.op with reset := false }, g.wi⟩
            modulator).2.op.envelope).reset := by
  intro g modulator hres
  obtain ⟨o, wi⟩ := g
  cases o
  simp only at hres
  subst hres
  simp only [OperatorGen.monoOutStep, OperatorGen.renderSample]
  split_ifs <;> simp_all

/-- Witness for C7 (amended) at the concrete pending-reset operator. -/
theorem pending_reset_applied_after_samples_witness :
    (gC7.monoOutStep [0]).1 =
      (OperatorGen.monoOutStep ⟨{ gC7.op with reset := false }, gC7.wi⟩ [0]).1 ∧
    (gC7.monoOutStep [0]).2.wi =
      (OperatorGen.monoOutStep ⟨{ gC7.op with reset := false }, gC7.wi⟩ [0]).2.wi ∧
    (gC7.monoOutStep [0]).2.op.reset = false ∧
    (gC7.monoOutStep [0]).2.op.envelope =
      ((OperatorGen.monoOutStep ⟨{ gC7.op with reset := false }, gC7.wi⟩
          [0]).2.op.envelope).reset :=
  pending_reset_applied_after_samples gC7 [0] rfl

/-! ## C4 — the note-off pitch-match gate -/

/-- C4 as stated: `note_off` is a no-op on a pitch mismatch; on a match
it releases every operator and clears `last_pitch_played`; and in
particular, after retriggering the same MIDI note on the same voice,
delivering the first `note_off` for the old instance does not release
the new instance (leaves the voice untouched). -/
def Claim4Stated : Prop :=
  (∀ (pm : PhaseModulator) (p v : ℚ), p ≠ pm.lastPitchPlayed →
      pm.noteOff p v = pm) ∧
  (∀ (pm : PhaseModulator) (p v : ℚ), p = pm.lastPitchPlayed →
      ((pm.noteOff p v).lastPitchPlayed = 0 ∧
       (pm.noteOff p v).op1.envelope.stage = .release ∧
       (pm.noteOff p v).op2.envelope.stage = .release ∧
       (pm.noteOff p v).op3.envelope.stage = .release)) ∧
  (∀ (pm : PhaseModulator) (p v w u : ℚ),
      ((pm.noteOn p v).noteOn p w).noteOff p u = (pm.noteOn p v).noteOn p w)

/-- Retriggering the SAME pitch leaves `last_pitch_played` equal to that
pitch, so the first stale `note_off` matches and releases the new
instance: on a fresh voice, `note_on(1)`, `note_on(1)`, `note_off(1)`
puts `op1` in Release — the claim's "does not release the new instance"
fails for same-note retriggers (the gate only protects retriggers at a
different pitch). -/
theorem noteoff_gate_counterexample : ¬ Claim4Stated := by
  intro h
  have := congrArg (fun x => x.op1.envelope.stage)
    (h.2.2 (PhaseModulator.fresh [] [] [] 0) 1 1 1 1)
  simp [PhaseModulator.fresh, PhaseModulator.freshOps, PhaseModulator.noteOn,
    PhaseModulator.noteOff, Operator.noteOn, Operator.noteOff,
    Envelope.release] at this

/-- C4 amended: the mismatch no-op and the match behaviour are as
claimed, and the retrigger protection holds exactly when the new note
has a DIFFERENT pitch: after `note_on(p)` then `note_on(q)` with
`q ≠ p`, the stale `note_off(p)` is a no-op. -/
theorem noteoff_gate_amended :
    (∀ (pm : PhaseModulator) (p v : ℚ), p ≠ pm.lastPitchPlayed →
        pm.noteOff p v = pm) ∧
    (∀ (pm : PhaseModulator) (p v : ℚ), p = pm.lastPitchPlayed →
        ((pm.noteOff p v).lastPitchPlayed = 0 ∧
         (pm.noteOff p v).op1.envelope.stage = .release ∧
         (pm.noteOff p v).op2.envelope.stage = .release ∧
         (pm.noteOff p v).op3.envelope.stage = .release)) ∧
    (∀ (pm : PhaseModulator) (p q v w u : ℚ), p ≠ q →
        ((pm.noteOn p v).noteOn q w).noteOff p u = (pm.noteOn p v).noteOn q w) := by
  refine ⟨?_, ?_, ?_⟩
  · intro pm p v h
    simp [PhaseModulator.noteOff, h]
  · intro pm p v h
    simp [PhaseModulator.noteOff, h, Operator.noteOff, Envelope.release]
  · intro pm p q v w u hpq
    have hlast : ((pm.noteOn p v).noteOn q w).lastPitchPlayed = q := rfl
    simp [PhaseModulator.noteOff, hlast, hpq]

/-- Witness for C4 (amended): the stale `note_off` after a
different-pitch retrigger is a no-op on a concrete fresh voice. -/
theorem noteoff_gate_amended_witness :
    (((PhaseModulator.fresh [] [] [] 0).noteOn 1 1).noteOn 2 1).noteOff 1 1 =
      ((PhaseModulator.fresh [] [] [] 0).noteOn 1 1).noteOn 2 1 ∧
    ((PhaseModulator.fresh [] [] [] 0).noteOff 1 0 =
      PhaseModulator.fresh [] [] [] 0) :=
  ⟨noteoff_gate_amended.2.2 _ 1 2 1 1 1 (by norm_num),
   noteoff_gate_amended.1 _ 1 0 (by
     simp [PhaseModulator.fresh, PhaseModulator.freshOps])⟩

/-! ## C3 — sustain-pedal deferral and the flush threshold -/

/-- A voice whose note has been released: no pitch is held and every
operator's envelope is in Release. -/
def ReleasedVoice (v : PhaseModulator) : Prop :=
  v.lastPitchPlayed = 0 ∧
  v.op1.envelope.stage = .release ∧
  v.op2.envelope.stage = .release ∧
  v.op3.envelope.stage = .release

/-- Broadcasting `note_off(p, 0)` preserves the released shape of a
voice: a mismatch is a no-op, and a match (only possible at `p = 0`)
re-releases the already released operators. -/
theorem noteOff_preserves_released {v : PhaseModulator} (h : ReleasedVoice v)
    (p u : ℚ) : ReleasedVoice (v.noteOff p u) := by
  obtain ⟨h0, h1, h2, h3⟩ := h
  unfold PhaseModulator.noteOff
  split_ifs with hp
  · exact ⟨h0, h1, h2, h3⟩
  · exact ⟨rfl, rfl, rfl, rfl⟩

/-- The pitch-by-pitch broadcast fold leaves a released voice released. -/
theorem foldl_noteOff_preserves_released {v : PhaseModulator}
    (h : ReleasedVoice v) (ps : List ℚ) :
    ReleasedVoice (ps.foldl (fun v p => v.noteOff p 0) v) := by
  induction ps generalizing v with
  | nil => exact h
  | cons p t ih => exact ih (noteOff_preserves_released h p 0)

/-- A voice holding none of the flushed pitches is untouched by the
broadcast fold. -/
theorem foldl_noteOff_not_mem {v : PhaseModulator} (ps : List ℚ)
    (h : v.lastPitchPlayed ∉ ps) :
    ps.foldl (fun v p => v.noteOff p 0) v = v := by
  induction ps with
  | nil => rfl
  | cons p t ih =>
      have hp : p ≠ v.lastPitchPlayed := fun e => h (by rw [← e]; exact List.mem_cons_self p t)
      have hstep : v.noteOff p 0 = v := by
        unfold PhaseModulator.noteOff
        rw [if_pos hp]
      rw [List.foldl_cons, hstep]
      exact ih (fun hm => h (List.mem_cons_of_mem p hm))

/-- A voice holding one of the flushed pitches ends up released. -/
theorem foldl_noteOff_mem {v : PhaseModulator} (ps : List ℚ)
    (h : v.lastPitchPlayed ∈ ps) :
    ReleasedVoice (ps.foldl (fun v p => v.noteOff p 0) v) := by
  induction ps generalizing v with
  | nil => cases h
  | cons p t ih =>
      rw [List.foldl_cons]
      by_cases hp : p = v.lastPitchPlayed
      · have hrel : ReleasedVoice (v.noteOff p 0) := by
          unfold PhaseModulator.noteOff
          rw [if_neg (by simpa using hp)]
          exact ⟨rfl, rfl, rfl, rfl⟩
        exact foldl_noteOff_preserves_released hrel t
      · have hstep : v.noteOff p 0 = v := by
          unfold PhaseModulator.noteOff
          rw [if_pos hp]
        rw [hstep]
        have : v.lastPitchPlayed ∈ t := by
          rcases List.mem_cons.mp h with h' | h'
          · exact absurd h'.symm hp
          · exact h'
        exact ih this

/-- The per-pitch fold of per-voice maps is the per-voice map of
per-pitch folds. -/
theorem foldl_map_noteOff (ps : List ℚ) (vs : List PhaseModulator) :
    ps.foldl (fun vs p => vs.map fun v => v.noteOff p 0) vs =
      vs.map fun v => ps.foldl (fun v p => v.noteOff p 0) v := by
  induction ps generalizing vs with
  | nil => simp
  | cons p t ih =>
      rw [List.foldl_cons, ih, List.map_map]
      rfl

/-- Reading a mapped list at an in-bounds index. -/
theorem getD_map_lt {α β : Type} (f : α → β) (l : List α) (i : ℕ) (d : α)
    (h : i < l.length) : (l.map f).getD i (f d) = f (l.getD i d) := by
  rw [List.getD_eq_getElem?_getD, List.getElem?_map, List.getD_eq_getElem?_getD,
    List.getElem?_eq_getElem h]
  simp

/-- C3 as stated: with the stored sustain level above 32, `note_off` of a
mapped pitch only records the pitch and releases no voice; and
`sustain(value)` with the stored level above 32 and `value ≤ 32` flushes
and clears the set, always storing the new value. -/
def Claim3Stated : Prop :=
  (∀ (s : Synthesizer) (note velocity : ℕ) (pitch : ℚ),
      noteToFreq note = some pitch → s.sustainLevel > 32 →
      ((s.noteOff note velocity).voices = s.voices ∧
       pitch ∈ (s.noteOff note velocity).releasedOnSustain ∧
       (s.noteOff note velocity).sustainLevel = s.sustainLevel)) ∧
  (∀ (s : Synthesizer) (value : ℤ), s.sustainLevel > 32 → value ≤ 32 →
      ((s.sustain value).releasedOnSustain = [] ∧
       (s.sustain value).sustainLevel = value))

/-- A synthesizer state holding the pedal at 127 with one deferred
pitch. -/
def c3state : Synthesizer :=
  { polyphony := 0, sampleRate := 0, wave1 := [], wave2 := [], wave3 := [],
    panning := [], voices := [], voicesLru := [], sustainLevel := 127,
    releasedOnSustain := [1], genTag := 0 }

/-- The source flushes only on `value < 32` (fmsynth.py line 259), not
`value ≤ 32`: `sustain(32)` from level 127 with a deferred pitch leaves
the set unflushed, refuting the claim's boundary case. -/
theorem sustain_threshold_counterexample : ¬ Claim3Stated := by
  intro h
  have := (h.2 c3state 32 (by norm_num [c3state]) (by norm_num)).1
  simp [Synthesizer.sustain, c3state] at this

/-- C3 amended: the deferral behaviour of `note_off` is as claimed; the
flush happens exactly when the stored level is above 32 and the new
value is STRICTLY below 32 (at `value = 32` nothing is flushed), in
which case every voice holding a deferred pitch is released, every other
voice is untouched, and the set is cleared; and the stored level always
becomes the new value. -/
theorem sustain_deferral_amended :
    (∀ (s : Synthesizer) (note velocity : ℕ) (pitch : ℚ),
        noteToFreq note = some pitch → s.sustainLevel > 32 →
        ((s.noteOff note velocity).voices = s.voices ∧
         pitch ∈ (s.noteOff note velocity).releasedOnSustain ∧
         (s.noteOff note velocity).sustainLevel = s.sustainLevel)) ∧
    (∀ (s : Synthesizer) (value : ℤ), s.sustainLevel > 32 → value < 32 →
        ((s.sustain value).releasedOnSustain = [] ∧
         ∀ i : ℕ, i < s.voices.length →
           (((s.voices.getD i defaultPM).lastPitchPlayed ∈ s.releasedOnSustain →
               ReleasedVoice ((s.sustain value).voices.getD i defaultPM)) ∧
            ((s.voices.getD i defaultPM).lastPitchPlayed ∉ s.releasedOnSustain →
               (s.sustain value).voices.getD i defaultPM = s.voices.getD i defaultPM)))) ∧
    (∀ (s : Synthesizer) (value : ℤ), (s.sustain value).sustainLevel = value) := by
  refine ⟨?_, ?_, ?_⟩
  · intro s note velocity pitch hlook hsus
    unfold Synthesizer.noteOff
    rw [hlook]
    dsimp only
    rw [if_pos hsus]
    refine ⟨rfl, ?_, rfl⟩
    by_cases hmem : pitch ∈ s.releasedOnSustain
    · simp [hmem]
    · simp [hmem]
  · intro s value hsus hval
    have hcond : s.sustainLevel > 32 ∧ value < 32 := ⟨hsus, hval⟩
    unfold Synthesizer.sustain
    rw [if_pos hcond]
    refine ⟨rfl, ?_⟩
    intro i hi
    have hmap := foldl_map_noteOff s.releasedOnSustain s.voices
    constructor
    · intro hmem
      simp only [hmap]
      have hd : defaultPM = (fun v => s.releasedOnSustain.foldl
          (fun v p => v.noteOff p 0) v) defaultPM ∨ True := Or.inr trivial
      rw [show (s.voices.map fun v => s.releasedOnSustain.foldl
            (fun v p => v.noteOff p 0) v).getD i defaultPM =
          (s.voices.map fun v => s.releasedOnSustain.foldl
            (fun v p => v.noteOff p 0) v).getD i
            ((fun v => s.releasedOnSustain.foldl (fun v p => v.noteOff p 0) v)
              defaultPM) from ?_, getD_map_lt _ _ _ _ hi]
      · exact foldl_noteOff_mem s.releasedOnSustain hmem
      · rw [List.getD_eq_getElem?_getD, List.getD_eq_getElem?_getD,
          List.getElem?_map, List.getElem?_eq_getElem (by simpa using hi)]
        simp
    · intro hmem
      simp only [hmap]
      rw [show (s.voices.map fun v => s.releasedOnSustain.foldl
            (fun v p => v.noteOff p 0) v).getD i defaultPM =
          (s.voices.map fun v => s.releasedOnSustain.foldl
            (fun v p => v.noteOff p 0) v).getD i
            ((fun v => s.releasedOnSustain.foldl (fun v p => v.noteOff p 0) v)
              defaultPM) from ?_, getD_map_lt _ _ _ _ hi]
      · exact foldl_noteOff_not_mem s.releasedOnSustain hmem
      · rw [List.getD_eq_getElem?_getD, List.getD_eq_getElem?_getD,
          List.getElem?_map, List.getElem?_eq_getElem (by simpa using hi)]
        simp
  · intro s value
    unfold Synthesizer.sustain
    split_ifs <;> rfl

/-- Witness for C3 (amended) on the concrete pedal state: `sustain(31)`
flushes, and a deferred `note_off` of MIDI note 60 at level 127 only
records the pitch. -/
theorem sustain_deferral_amended_witness :
    ((c3state.sustain 31).releasedOnSustain = [] ∧
      ∀ i : ℕ, i < c3state.voices.length →
        (((c3state.voices.getD i defaultPM).lastPitchPlayed ∈ c3state.releasedOnSustain →
            ReleasedVoice ((c3state.sustain 31).voices.getD i defaultPM)) ∧
         ((c3state.voices.getD i defaultPM).lastPitchPlayed ∉ c3state.releasedOnSustain →
            (c3state.sustain 31).voices.getD i defaultPM =
              c3state.voices.getD i defaultPM))) ∧
    ((c3state.noteOff 60 100).voices = c3state.voices ∧
      freqVal 60 ∈ (c3state.noteOff 60 100).releasedOnSustain ∧
      (c3state.noteOff 60 100).sustainLevel = c3state.sustainLevel) :=
  ⟨sustain_deferral_amended.2.1 c3state 31 (by norm_num [c3state]) (by norm_num),
   sustain_deferral_amended.1 c3state 60 100 (freqVal 60) rfl (by norm_num [c3state])⟩

/-! ## C1 — the voice-allocation scan of `note_on` -/

/-- A found index of `findIdx?` lies past the accumulator and within the
list. -/
theorem findIdx?_some_bound {α : Type} (p : α → Bool) :
    ∀ (l : List α) (i k : ℕ), List.findIdx? p l i = some k →
      i ≤ k ∧ k - i < l.length
  | [], i, k, h => by simp at h
  | x :: t, i, k, h => by
      rw [List.findIdx?_cons] at h
      by_cases hx : p x = true
      · rw [if_pos hx] at h
        obtain rfl : i = k := by simpa using h
        exact ⟨le_rfl, by simp⟩
      · rw [if_neg hx] at h
        obtain ⟨h1, h2⟩ := findIdx?_some_bound p t (i + 1) k h
        exact ⟨by omega, by simp; omega⟩

/-- The `findIdx?` returns the first satisfying index: if position `k` holds
and every earlier position fails, the scan finds `i + k`. -/
theorem findIdx?_eq_some_of_minimal {α : Type} (p : α → Bool) (d : α) :
    ∀ (l : List α) (i k : ℕ), k < l.length → p (l.getD k d) = true →
      (∀ j, j < k → p (l.getD j d) = false) →
      List.findIdx? p l i = some (i + k)
  | [], _, k, hk, _, _ => by simp at hk
  | x :: t, i, 0, _, hp, _ => by
      rw [List.findIdx?_cons, if_pos (by simpa using hp)]
      simp
  | x :: t, i, k + 1, hk, hp, hmin => by
      rw [List.findIdx?_cons, if_neg (by simpa using hmin 0 (Nat.succ_pos k))]
      rw [findIdx?_eq_some_of_minimal p d t (i + 1) k (by simpa using hk)
        (by simpa using hp) (fun j hj => by simpa using hmin (j + 1) (by omega))]
      congr 1
      omega

/-- The scenario start state: a freshly constructed polyphony-2
synthesizer at 44100 Hz (the wavetable contents are irrelevant to
allocation and are taken empty). -/
def c1s0 : Synthesizer :=
  { polyphony := 2, sampleRate := 44100, wave1 := [], wave2 := [], wave3 := [],
    panning := [-1, 1],
    voices := [PhaseModulator.fresh [] [] [] 44100,
               PhaseModulator.fresh [] [] [] 44100],
    voicesLru := [0, 1], sustainLevel := 0, releasedOnSustain := [], genTag := 1 }

/-- The scenario runs from `c1s0`. -/
def c1run (ops : List MidiOp) : Synthesizer := (runOps c1s0 ops).getD c1s0

/-- Constructing `Synthesizer(polyphony=2, sample_rate=44100)` yields
exactly `c1s0`. -/
theorem mk_two_s0 : Synthesizer.mk' 2 44100 [] [] [] = some c1s0 := by
  unfold Synthesizer.mk' Synthesizer.resetVoices
  rw [show Synthesizer.panningList 2 = some [-1, 1] by
    norm_num [Synthesizer.panningList, List.range_succ, List.mapM.loop]]
  norm_num [c1s0, List.range_succ]

/-- C1: the allocation policy of `Synthesizer.note_on` — (1) the first
voice in LRU order whose `is_silent()` holds is chosen and moved to the
back of the LRU; (2) otherwise the first voice whose `is_released()`
holds is chosen the same way; (3) otherwise the voice at the LRU front
is stolen; and (4) the concrete polyphony-2 scenario: `c1s0` is what
`Synthesizer(polyphony=2, sample_rate=44100)` constructs, and after
`note_on(60,100)`, `note_on(64,100)` voice 0 holds note 60 and voice 1
holds note 64; the next `note_on(67,100)` reassigns voice 0 (the voice
holding note 60, the LRU front), leaving voice 1 still on note 64. -/
theorem voice_allocation_scan :
    (∀ (voices : List PhaseModulator) (lru : List ℕ) (k : ℕ),
        k < lru.length →
        (voices.getD (lru.getD k 0) defaultPM).isSilent = true →
        (∀ j, j < k → (voices.getD (lru.getD j 0) defaultPM).isSilent = false) →
        Synthesizer.allocVoice voices lru =
          (lru.getD k 0, lru.eraseIdx k ++ [lru.getD k 0])) ∧
    (∀ (voices : List PhaseModulator) (lru : List ℕ) (k : ℕ),
        k < lru.length →
        (∀ vi ∈ lru, (voices.getD vi defaultPM).isSilent = false) →
        (voices.getD (lru.getD k 0) defaultPM).isReleased = true →
        (∀ j, j < k → (voices.getD (lru.getD j 0) defaultPM).isReleased = false) →
        Synthesizer.allocVoice voices lru =
          (lru.getD k 0, lru.eraseIdx k ++ [lru.getD k 0])) ∧
    (∀ (voices : List PhaseModulator) (lru : List ℕ),
        (∀ vi ∈ lru, (voices.getD vi defaultPM).isSilent = false) →
        (∀ vi ∈ lru, (voices.getD vi defaultPM).isReleased = false) →
        Synthesizer.allocVoice voices lru =
          (lru.getD 0 0, lru.eraseIdx 0 ++ [lru.getD 0 0])) ∧
    (Synthesizer.mk' 2 44100 [] [] [] = some c1s0 ∧
     (runOps c1s0 [.noteOn 60 100, .noteOn 64 100]).isSome = true ∧
     ((c1run [.noteOn 60 100, .noteOn 64 100]).voices.getD 0
         defaultPM).lastPitchPlayed = freqVal 60 ∧
     ((c1run [.noteOn 60 100, .noteOn 64 100]).voices.getD 1
         defaultPM).lastPitchPlayed = freqVal 64 ∧
     (runOps c1s0 [.noteOn 60 100, .noteOn 64 100, .noteOn 67 100]).isSome = true ∧
     ((c1run [.noteOn 60 100, .noteOn 64 100, .noteOn 67 100]).voices.getD 0
         defaultPM).lastPitchPlayed = freqVal 67 ∧
     ((c1run [.noteOn 60 100, .noteOn 64 100, .noteOn 67 100]).voices.getD 1
         defaultPM).lastPitchPlayed = freqVal 64) := by
  refine ⟨?_, ?_, ?_, ?_, rfl, rfl, rfl, ?_, ?_, ?_⟩
  · intro voices lru k hk hp hmin
    have h := findIdx?_eq_some_of_minimal
      (fun vi => (voices.getD vi defaultPM).isSilent) 0 lru 0 k hk hp hmin
    rw [Nat.zero_add] at h
    unfold Synthesizer.allocVoice
    rw [h]
  · intro voices lru k hk hnosil hp hmin
    have hn : List.findIdx? (fun vi => (voices.getD vi defaultPM).isSilent) lru =
        none := List.findIdx?_eq_none_iff.mpr hnosil
    have h := findIdx?_eq_some_of_minimal
      (fun vi => (voices.getD vi defaultPM).isReleased) 0 lru 0 k hk hp hmin
    rw [Nat.zero_add] at h
    unfold Synthesizer.allocVoice
    rw [hn, h]
  · intro voices lru hnosil hnorel
    have hn : List.findIdx? (fun vi => (voices.getD vi defaultPM).isSilent) lru =
        none := List.findIdx?_eq_none_iff.mpr hnosil
    have hn2 : List.findIdx? (fun vi => (voices.getD vi defaultPM).isReleased) lru =
        none := List.findIdx?_eq_none_iff.mpr hnorel
    unfold Synthesizer.allocVoice
    rw [hn, hn2]
  · exact mk_two_s0
  · simp [c1run, runOps, applyOp, Synthesizer.noteOn, Synthesizer.allocVoice,
      noteToFreq, c1s0, PhaseModulator.fresh, PhaseModulator.freshOps,
      PhaseModulator.noteOn, PhaseModulator.isSilent, PhaseModulator.isReleased,
      Operator.noteOn, Operator.isSilent, Envelope.isSilent,
      List.findIdx?, freqVal_beq_zero, defaultPM]
  · simp [c1run, runOps, applyOp, Synthesizer.noteOn, Synthesizer.allocVoice,
      noteToFreq, c1s0, PhaseModulator.fresh, PhaseModulator.freshOps,
      PhaseModulator.noteOn, PhaseModulator.isSilent, PhaseModulator.isReleased,
      Operator.noteOn, Operator.isSilent, Envelope.isSilent,
      List.findIdx?, freqVal_beq_zero, defaultPM]
  · simp [c1run, runOps, applyOp, Synthesizer.noteOn, Synthesizer.allocVoice,
      noteToFreq, c1s0, PhaseModulator.fresh, PhaseModulator.freshOps,
      PhaseModulator.noteOn, PhaseModulator.isSilent, PhaseModulator.isReleased,
      Operator.noteOn, Operator.isSilent, Envelope.isSilent,
      List.findIdx?, freqVal_beq_zero, defaultPM]

/-- Witness for C1 at a concrete allocation: on `c1s0` (both voices
silent, LRU `[0, 1]`), the scan picks voice 0 and moves it to the back. -/
theorem voice_allocation_scan_witness :
    Synthesizer.allocVoice c1s0.voices [0, 1] = (0, [1, 0]) := by
  have h := voice_allocation_scan.1 c1s0.voices [0, 1] 0 (by norm_num)
    (by simp [c1s0, PhaseModulator.fresh, PhaseModulator.freshOps,
      PhaseModulator.isSilent, Operator.isSilent, Envelope.isSilent, defaultPM])
    (fun j hj => absurd hj (by omega))
  simpa using h

/-! ## C2 — hot reset and the mixer's rebuild-and-render contract -/

/-- A render step on an operator whose envelope is silent and whose flag
is clear is inert: zeros out, object unchanged, phase zeroed. -/
theorem opStep_of_silent {o : Operator} (wi : ℚ) (modulator : List ℤ)
    (hsil : o.envelope.isSilent = true) (hres : o.reset = false) :
    OperatorGen.monoOutStep ⟨o, wi⟩ modulator =
      (List.replicate modulator.length 0, ⟨o, 0⟩) := by
  cases o
  simp only at hsil hres
  subst hres
  simp [OperatorGen.monoOutStep, hsil]

/-- All three operators of a voice are silent. -/
def AllOpsSilent (pm : PhaseModulator) : Prop :=
  pm.op1.isSilent = true ∧ pm.op2.isSilent = true ∧ pm.op3.isSilent = true

/-- An operator is silent iff its flag is clear and its envelope idle. -/
theorem op_isSilent_iff (o : Operator) :
    o.isSilent = true ↔ o.reset = false ∧ o.envelope.isSilent = true := by
  unfold Operator.isSilent
  cases hr : o.reset <;> simp

/-- A voice whose three operators are silent is silent under every
algorithm. -/
theorem pm_isSilent_of_allOps {pm : PhaseModulator} (h : AllOpsSilent pm) :
    pm.isSilent = true := by
  obtain ⟨h1, h2, h3⟩ := h
  unfold PhaseModulator.isSilent
  split_ifs <;> simp [h1, h2, h3]

/-- A render step on a voice whose three operators are silent emits
zeros, leaves the voice unchanged and restarts all three phase
accumulators at zero. -/
theorem pmStep_of_silent {pm : PhaseModulator} (g : PMGen) (want : ℕ)
    (h : AllOpsSilent pm) :
    pm.monoOutStep g want = (List.replicate want 0, pm, ⟨0, 0, 0⟩) := by
  obtain ⟨h1, h2, h3⟩ := h
  obtain ⟨hr1, he1⟩ := (op_isSilent_iff pm.op1).mp h1
  obtain ⟨hr2, he2⟩ := (op_isSilent_iff pm.op2).mp h2
  obtain ⟨hr3, he3⟩ := (op_isSilent_iff pm.op3).mp h3
  have hz : ∀ n : ℕ, List.zipWith (fun a b => saturate (a + b))
      (List.replicate n (0 : ℤ)) (List.replicate n (0 : ℤ)) =
      List.replicate n (0 : ℤ) := by
    intro n
    rw [List.zipWith_replicate]
    norm_num [saturate, INT16_MAXVALUE]
  unfold PhaseModulator.monoOutStep
  split_ifs <;>
    simp [opStep_of_silent _ _ he1 hr1, opStep_of_silent _ _ he2 hr2,
      opStep_of_silent _ _ he3 hr3, hz, List.length_replicate, saturate,
      INT16_MAXVALUE]

/-- Reading every index of a list back via `range` reproduces the
list. -/
theorem map_range_getD {α : Type} (l : List α) (d : α) :
    (List.range l.length).map (fun i => l.getD i d) = l := by
  apply List.ext_getElem
  · simp
  · intro i h1 h2
    rw [List.getElem_map, List.getElem_range]
    rw [List.getD_eq_getElem?_getD, List.getElem?_eq_getElem h2]
    simp

/-- One mixer pull on a synthesizer whose voices are all silent: the
interleaved output has exactly `2 * want` samples and the synthesizer
comes out unchanged (in particular, its voices stay silent until a
`note_on`). -/
theorem stereoOutStep_of_silent (s : Synthesizer) (m : MixerState) (want : ℕ)
    (hlen : s.voices.length = s.polyphony)
    (hsil : ∀ v ∈ s.voices, AllOpsSilent v) :
    (s.stereoOutStep m want).1.length = 2 * want ∧
    (s.stereoOutStep m want).2.1 = s := by
  have hget : ∀ i : ℕ, i < s.polyphony →
      (s.voices.getD i defaultPM).monoOutStep
        ((if m.idVoices = s.genTag then m else s.rebuildChain).chain.getD i {})
        want =
      (List.replicate want 0, s.voices.getD i defaultPM, ⟨0, 0, 0⟩) := by
    intro i hi
    have hmem : s.voices.getD i defaultPM ∈ s.voices := by
      rw [List.getD_eq_getElem?_getD, List.getElem?_eq_getElem (by omega)]
      simp only [Option.getD_some]
      exact List.getElem_mem _
    exact pmStep_of_silent _ _ (hsil _ hmem)
  constructor
  · simp [Synthesizer.stereoOutStep]
  · unfold Synthesizer.stereoOutStep
    simp only
    rw [show ((List.range s.polyphony).map fun i =>
        (s.voices.getD i defaultPM).monoOutStep
          ((if m.idVoices = s.genTag then m else s.rebuildChain).chain.getD i {})
          want).map (fun r => r.2.1) =
        (List.range s.polyphony).map fun i => s.voices.getD i defaultPM by
      rw [List.map_map]
      refine List.map_congr_left ?_
      intro i hi
      have := hget i (by simpa using hi)
      simp only [List.getD_eq_getElem?_getD] at this
      simp [this]]
    rw [← hlen, map_range_getD, hlen]

/-- The `reset_voices` produces a full pool of fresh, silent voices. -/
theorem resetVoices_state {s s' : Synthesizer} (h : s.resetVoices = some s') :
    s'.voices.length = s'.polyphony ∧ s'.polyphony = s.polyphony ∧
    (∀ v ∈ s'.voices, AllOpsSilent v) ∧
    s'.voicesLru = List.range s'.polyphony := by
  unfold Synthesizer.resetVoices at h
  rcases hpan : Synthesizer.panningList s.polyphony with _ | pans
  · rw [hpan] at h
    simp at h
  · rw [hpan] at h
    rw [Option.map_some', Option.some_inj] at h
    subst h
    refine ⟨by simp, rfl, ?_, rfl⟩
    intro v hv
    rcases List.mem_map.mp hv with ⟨i, _, rfl⟩
    exact ⟨rfl, rfl, rfl⟩

/-- The `n` successive pulls of `want` frames from the mixer, threading the
synthesizer and mixer state. -/
def renderIter (want : ℕ) : ℕ → Synthesizer × MixerState → Synthesizer × MixerState
  | 0, st => st
  | n + 1, st =>
      let r := st.1.stereoOutStep st.2 want
      renderIter want n (r.2.1, r.2.2)

/-- After a hard reset the synthesizer state is a fixed point of the
render path. -/
theorem renderIter_fixed {s' : Synthesizer} (want : ℕ)
    (hlen : s'.voices.length = s'.polyphony)
    (hsil : ∀ v ∈ s'.voices, AllOpsSilent v) :
    ∀ (n : ℕ) (m : MixerState), (renderIter want n (s', m)).1 = s' := by
  intro n
  induction n with
  | zero => intro m; rfl
  | succ k ih =>
      intro m
      have hfix := (stereoOutStep_of_silent s' m want hlen hsil).2
      show (renderIter want k
        ((s'.stereoOutStep m want).2.1, (s'.stereoOutStep m want).2.2)).1 = s'
      rw [hfix]
      exact ih _

/-- C2: after `all_notes_off` replaces the voice pool, every following
pull of `want ≤ MAX_BUFFER` frames from the stereo output stage (the
`n`-th pull included, for every `n`) returns exactly `want` interleaved
stereo frames — `2 * want` samples — in that same call, the rebuild
notwithstanding, and every voice reports `is_silent() = true` before and
after each pull (until a new `note_on`, which is not among the applied
operations). -/
theorem hot_reset_full_buffer_and_silence :
    ∀ (s : Synthesizer) (v : ℤ) (s' : Synthesizer) (m : MixerState) (want n : ℕ),
      s.allNotesOff v = some s' → want ≤ MAX_BUFFER →
      ((∀ vv ∈ (renderIter want n (s', m)).1.voices, vv.isSilent = true) ∧
       ((renderIter want n (s', m)).1.stereoOutStep
           (renderIter want n (s', m)).2 want).1.length = 2 * want ∧
       (∀ vv ∈ ((renderIter want n (s', m)).1.stereoOutStep
           (renderIter want n (s', m)).2 want).2.1.voices, vv.isSilent = true)) := by
  intro s v s' m want n hreset _hwant
  obtain ⟨hlen, _, hsil, _⟩ := resetVoices_state hreset
  have hfix := renderIter_fixed want hlen hsil n m
  have hstep := stereoOutStep_of_silent s'
    (renderIter want n (s', m)).2 want hlen hsil
  refine ⟨?_, ?_, ?_⟩
  · rw [hfix]
    intro vv hvv
    exact pm_isSilent_of_allOps (hsil vv hvv)
  · rw [hfix]
    exact hstep.1
  · rw [hfix, hstep.2]
    intro vv hvv
    exact pm_isSilent_of_allOps (hsil vv hvv)

/-- An option with a value is `some` of its default read. -/
theorem eq_some_getD {α : Type} (o : Option α) (d : α) (h : o.isSome = true) :
    o = some (o.getD d) := by
  cases o <;> simp_all

/-- The concrete state produced by `all_notes_off` on the polyphony-2
synthesizer `c1s0`. -/
def c2reset : Synthesizer := (c1s0.allNotesOff 0).getD c1s0

/-- The `all_notes_off` on `c1s0` succeeds and produces `c2reset`. -/
theorem c2reset_spec : c1s0.allNotesOff 0 = some c2reset := by
  apply eq_some_getD
  have hpan : Synthesizer.panningList 2 = some [-1, 1] := by
    norm_num [Synthesizer.panningList, List.range_succ, List.mapM.loop]
  simp [Synthesizer.allNotesOff, Synthesizer.resetVoices, c1s0, hpan]

/-- Witness for C2: after resetting `c1s0`, the second pull of 2 frames
still returns 4 interleaved samples and the voices stay silent. -/
theorem hot_reset_full_buffer_and_silence_witness :
    (∀ vv ∈ (renderIter 2 1 (c2reset, ⟨0, []⟩)).1.voices, vv.isSilent = true) ∧
    ((renderIter 2 1 (c2reset, ⟨0, []⟩)).1.stereoOutStep
        (renderIter 2 1 (c2reset, ⟨0, []⟩)).2 2).1.length = 2 * 2 ∧
    (∀ vv ∈ ((renderIter 2 1 (c2reset, ⟨0, []⟩)).1.stereoOutStep
        (renderIter 2 1 (c2reset, ⟨0, []⟩)).2 2).2.1.voices, vv.isSilent = true) :=
  hot_reset_full_buffer_and_silence c1s0 0 c2reset ⟨0, []⟩ 2 1 c2reset_spec
    (by norm_num [MAX_BUFFER])

/-! ## C9 — the reachable-state invariants -/

/-- The LRU list the allocation scan produces is a permutation of the
one it was given, whenever the pool is nonempty. -/
theorem allocVoice_lru_perm (voices : List PhaseModulator) (lru : List ℕ)
    (hne : lru ≠ []) : ((Synthesizer.allocVoice voices lru).2).Perm lru := by
  unfold Synthesizer.allocVoice
  rcases h1 : List.findIdx? (fun vi => (voices.getD vi defaultPM).isSilent) lru
    with _ | k
  · rcases h2 : List.findIdx? (fun vi => (voices.getD vi defaultPM).isReleased) lru
      with _ | k
    · exact eraseIdx_append_getD_perm 0 lru 0 (List.length_pos.mpr hne)
    · have hb := findIdx?_some_bound _ lru 0 k h2
      exact eraseIdx_append_getD_perm 0 lru k (by omega)
  · have hb := findIdx?_some_bound _ lru 0 k h1
    exact eraseIdx_append_getD_perm 0 lru k (by omega)

/-- The `note_off` touches neither the LRU list nor the polyphony. -/
theorem noteOff_lru (s : Synthesizer) (note velocity : ℕ) :
    (s.noteOff note velocity).voicesLru = s.voicesLru ∧
    (s.noteOff note velocity).polyphony = s.polyphony := by
  unfold Synthesizer.noteOff
  rcases noteToFreq note with _ | pitch
  · exact ⟨rfl, rfl⟩
  · dsimp only
    split_ifs <;> exact ⟨rfl, rfl⟩

/-- The `sustain` touches neither the LRU list nor the polyphony. -/
theorem sustain_lru (s : Synthesizer) (value : ℤ) :
    (s.sustain value).voicesLru = s.voicesLru ∧
    (s.sustain value).polyphony = s.polyphony := by
  unfold Synthesizer.sustain
  split_ifs <;> exact ⟨rfl, rfl⟩

/-- Every control-path operation preserves the LRU-permutation
invariant. -/
theorem applyOp_perm {s s' : Synthesizer} (op : MidiOp)
    (h : applyOp s op = some s')
    (hp : s.voicesLru.Perm (List.range s.polyphony)) :
    s'.voicesLru.Perm (List.range s'.polyphony) := by
  cases op with
  | noteOn note velocity =>
      simp only [applyOp, Synthesizer.noteOn] at h
      rcases hl : noteToFreq note with _ | pitch
      · rw [hl] at h
        simp only [Option.some_inj] at h
        subst h
        exact hp
      · rw [hl] at h
        dsimp only at h
        by_cases he : s.voicesLru.isEmpty
        · rw [if_pos he] at h
          simp at h
        · rw [if_neg he] at h
          simp only [Option.some_inj] at h
          subst h
          exact (allocVoice_lru_perm s.voices s.voicesLru
            (by simpa [List.isEmpty_iff] using he)).trans hp
  | noteOff note velocity =>
      simp only [applyOp, Option.some_inj] at h
      subst h
      obtain ⟨h1, h2⟩ := noteOff_lru s note velocity
      rw [h1, h2]
      exact hp
  | sustain value =>
      simp only [applyOp, Option.some_inj] at h
      subst h
      obtain ⟨h1, h2⟩ := sustain_lru s value
      rw [h1, h2]
      exact hp
  | allNotesOff value =>
      simp only [applyOp, Synthesizer.allNotesOff] at h
      rw [(resetVoices_state h).2.2.2]

/-- Running a sequence of control-path operations preserves the
LRU-permutation invariant. -/
theorem runOps_perm : ∀ (ops : List MidiOp) {s s' : Synthesizer},
    runOps s ops = some s' →
    s.voicesLru.Perm (List.range s.polyphony) →
    s'.voicesLru.Perm (List.range s'.polyphony)
  | [], s, s', h, hp => by
      simp only [runOps, Option.some_inj] at h
      subst h
      exact hp
  | op :: t, s, s', h, hp => by
      simp only [runOps] at h
      rcases happ : applyOp s op with _ | s1
      · rw [happ] at h
        simp at h
      · rw [happ] at h
        simp only [Option.some_bind] at h
        exact runOps_perm t h (applyOp_perm op happ hp)

/-- Uniqueness of sounding pitches: any two
distinct voices agreeing on a nonzero `last_pitch_played` cannot both be
sounding (at least one must be silent). -/
def SoundingPitchUnique (s : Synthesizer) : Prop :=
  s.voices.Pairwise fun a b =>
    a.lastPitchPlayed = b.lastPitchPlayed →
    (a.lastPitchPlayed = 0 ∨ a.isSilent = true ∨ b.isSilent = true)

/-- C9 as stated: in every reachable state, at most one voice is
assigned to a given sounding pitch. -/
def Claim9Stated : Prop := ∀ s : Synthesizer, Reaches s → SoundingPitchUnique s

/-- Two consecutive `note_on(60, 100)` on the fresh polyphony-2
synthesizer. -/
def c9ops : List MidiOp := [.noteOn 60 100, .noteOn 60 100]

/-- The state after playing note 60 twice: both voices hold the pitch of
note 60 and are sounding. -/
def c9state : Synthesizer := (runOps c1s0 c9ops).getD c1s0

/-- Running the two `note_on`s succeeds and reaches `c9state`. -/
theorem c9state_spec : runOps c1s0 c9ops = some c9state :=
  eq_some_getD _ _ (by rfl)

/-- The `c9state` is reachable. -/
theorem reaches_c9state : Reaches c9state :=
  ⟨2, 44100, [], [], [], c1s0, c9ops, mk_two_s0, c9state_spec⟩

/-- A second `note_on(60)` with a free silent voice assigns the SAME
pitch to a second voice while the first is still sounding: in the
reachable state `c9state` both voices hold note 60's frequency and
neither is silent, refuting the at-most-one-voice-per-sounding-pitch
invariant. -/
theorem pitch_exclusivity_counterexample : ¬ Claim9Stated := by
  intro h
  have hsp := h c9state reaches_c9state
  have hlen : c9state.voices.length = 2 := rfl
  have hR := (List.pairwise_iff_getElem.mp hsp) 0 1
    (by omega) (by omega) (by omega)
  have hd := hR rfl
  rcases hd with h0 | hs | hs
  · exact freqVal_ne_zero 60 h0
  · exact Bool.false_ne_true hs
  · exact Bool.false_ne_true hs

/-- C9 amended: the other half of the spec's invariant sentence holds —
in every reachable state the LRU ordering is a permutation of
`0..polyphony` — but more than one voice can be assigned the same
sounding pitch (see the counterexample). -/
theorem lru_always_permutation :
    ∀ s : Synthesizer, Reaches s →
      s.voicesLru.Perm (List.range s.polyphony) := by
  rintro s ⟨p, sr, w1, w2, w3, s0, ops, hmk, hrun⟩
  have h0 : s0.voicesLru.Perm (List.range s0.polyphony) := by
    unfold Synthesizer.mk' at hmk
    rw [(resetVoices_state hmk).2.2.2]
  exact runOps_perm ops hrun h0

/-- Witness for C9 (amended) at the reachable state `c9state`. -/
theorem lru_always_permutation_witness :
    c9state.voicesLru.Perm (List.range c9state.polyphony) :=
  lru_always_permutation c9state reaches_c9state

end Aiotone
